import Mathlib

/-!
Verification of the orchestration core of the BitBake fetcher module
(lib/bb/fetch2/__init__.py).  The Python functions are shallowly embedded:
pure string manipulation is translated directly, Python exceptions become an
explicit error type, the persistent key-value store becomes explicit state
passing, and external collaborators (the regex engine used by uri_replace,
the variable store getVar, the fetch backends) are oracle parameters.
-/

set_option maxHeartbeats 1000000

namespace BBFetch

/-- Python exception classes of the module, plus the two builtin classes the
parameter parsing of decodeurl can raise.  exceptionRoot stands for the
builtin Exception class. -/
inductive PyClass where
  | exceptionRoot
  | bbFetchException
  | malformedUrl
  | fetchError
  | unpackError
  | noMethodError
  | missingParameterError
  | parameterError
  | md5SumError
  | sha256SumError
  | valueError
  | nameError
deriving DecidableEq, Repr

/-- Superclass of each class, following the class statements in the source:
every fetch exception derives from BBFetchException, which derives from
Exception, and SHA256SumError derives from MD5SumError. -/
def pyParent : PyClass → Option PyClass
  | .exceptionRoot => none
  | .bbFetchException => some .exceptionRoot
  | .malformedUrl => some .bbFetchException
  | .fetchError => some .bbFetchException
  | .unpackError => some .bbFetchException
  | .noMethodError => some .bbFetchException
  | .missingParameterError => some .bbFetchException
  | .parameterError => some .bbFetchException
  | .md5SumError => some .bbFetchException
  | .sha256SumError => some .md5SumError
  | .valueError => some .exceptionRoot
  | .nameError => some .exceptionRoot

/-- The chain of superclasses of a class, with fuel (the hierarchy has depth
at most four). -/
def ancestorChain : Nat → PyClass → List PyClass
  | 0, c => [c]
  | n + 1, c =>
    c :: (match pyParent c with
      | none => []
      | some p => ancestorChain n p)

/-- Class-level isinstance test: c is d or inherits from d. -/
def isInstanceOf (c d : PyClass) : Bool := d ∈ ancestorChain 8 c

/-- The exception tuple of the mirror-candidate handler in try_mirrors:
except (MissingParameterError, FetchError, MD5SumError). -/
def caughtByMirrorHandler (e : PyClass) : Bool :=
  isInstanceOf e .missingParameterError || isInstanceOf e .fetchError ||
    isInstanceOf e .md5SumError

/-- check_network_access: the argument is getVar("BB_NO_NETWORK", d, True).
It raises FetchError when the value is the string "1" and otherwise only
logs and returns. -/
def check_network_access (bbNoNetwork : Option String) : Except PyClass Unit :=
  if bbNoNetwork = some "1" then .error .fetchError else .ok ()

/-- Outcome of verify_checksum, one constructor per exit path of the code:
skipped for non-download types, warnedOk / warnedFetchError for the
missing-checksum warning branch (return, or raise FetchError under
BB_STRICT_CHECKSUM = "1"), md5Mismatch / sha256Mismatch for the raised
MD5SumError / SHA256SumError, and passed for the fall-through return. -/
inductive VerifyOutcome where
  | skipped
  | warnedOk
  | warnedFetchError
  | md5Mismatch
  | sha256Mismatch
  | passed
deriving DecidableEq, Repr

def plainTypes : List String := ["http", "https", "ftp", "ftps"]

/-- verify_checksum(u, ud, d).  Arguments: ud.type, ud.md5_expected,
ud.sha256_expected (getVarFlag results, None possible), the computed digests
of the local file, and getVar("BB_STRICT_CHECKSUM", d, True). -/
def verify_checksum (ty : String) (md5Expected sha256Expected : Option String)
    (md5data sha256data : String) (strictFlag : Option String) : VerifyOutcome :=
  if ty ∈ plainTypes then
    if md5Expected = none ∨ sha256Expected = none then
      if strictFlag = some "1" then .warnedFetchError else .warnedOk
    else if md5Expected ≠ some md5data then .md5Mismatch
    else if sha256Expected ≠ some sha256data then .sha256Mismatch
    else .passed
  else .skipped

/-- Python truthiness of an optional string: None and the empty string are
falsy. -/
def truthy : Option String → Bool
  | none => false
  | some s => s ≠ ""

/-- Lookup of a URI parameter: Python membership plus indexing on ud.parm. -/
def lookupParm (l : List (String × String)) (k : String) : Option String :=
  (l.find? (fun kv => kv.1 == k)).map (fun kv => kv.2)

/-- The SRCREV variable lookup chain of srcrev_internal_helper: the
per-name-and-package variable, then the per-name variable (both only when
name is nonempty), then the global SRCREV.  A falsy value falls through. -/
def srcrevLookup (getVar : String → Option String) (name pn : String) :
    Option String :=
  let r1 : Option String :=
    if name = "" then none
    else
      let a := getVar ("SRCREV_" ++ name ++ "_pn-" ++ pn)
      if truthy a then a else getVar ("SRCREV_" ++ name)
  if truthy r1 then r1 else getVar "SRCREV"

/-- srcrev_internal_helper(ud, d, name).  parm is ud.parm, getVar the
variable store, pn the package name, latestRevision the value the backend
latest_revision call would produce for the AUTOINC case. -/
def srcrev_internal_helper (parm : List (String × String))
    (getVar : String → Option String) (name pn : String)
    (latestRevision : String) : Except PyClass (Option String) :=
  match lookupParm parm "rev" with
  | some r => .ok (some r)
  | none =>
    match lookupParm parm "tag" with
    | some t => .ok (some t)
    | none =>
      let rev := srcrevLookup getVar name pn
      if rev = some "INVALID" then .error .fetchError
      else if rev = some "AUTOINC" then .ok (some latestRevision)
      else .ok rev

/-- The persisted localcounts mapping of FetchMethod.sortable_revision, the
keys key_rev and key_count split into two maps (the suffixes make the key
spaces disjoint).  Counts are decimal strings in the store; they are written
by str(int(c) + 1) or as "0", so they are modeled as Nat. -/
structure SortState where
  revs : String → Option String
  counts : String → Option Nat

/-- Per-call configuration of sortable_revision: the optional
_sortable_revision hook result (the method defers to it entirely when
present), the optional _sortable_buildindex hook, the truthiness of
BB_LOCALCOUNT_OVERRIDE, and the localcount_internal_helper result. -/
structure SortConfig where
  sortableHook : Option String
  buildindexHook : Option (String → Option Nat)
  uselocalcount : Bool
  localcountVal : Option Nat

def updateFun {α : Type} (f : String → Option α) (k : String) (v : α) :
    String → Option α :=
  fun x => if x = k then some v else f x

/-- FetchMethod.sortable_revision(url, ud, d, name).  key is the generated
revision key, latestRev the _build_revision result.  Returns the
"count+revision" string and the updated persistent state. -/
def sortable_revision (cfg : SortConfig) (st : SortState) (key : String)
    (latestRev : String) : String × SortState :=
  match cfg.sortableHook with
  | some s => (s, st)
  | none =>
    let lastRev := st.revs key
    let count0 : Option Nat := if cfg.uselocalcount then cfg.localcountVal else none
    let count1 : Nat :=
      match count0 with
      | some c => c
      | none => (st.counts key).getD 0
    if lastRev = some latestRev then
      (toString count1 ++ "+" ++ latestRev, st)
    else
      let count2 : Nat :=
        match cfg.buildindexHook with
        | some f =>
          match f latestRev with
          | none => 0
          | some c => c
        | none => if cfg.uselocalcount then count1 else count1 + 1
      (toString count2 ++ "+" ++ latestRev,
        { revs := updateFun st.revs key latestRev,
          counts := updateFun st.counts key count2 })

/-- Decimal value of a digit list. -/
def digitsToNat (l : List Char) : Nat :=
  l.foldl (fun n c => n * 10 + (c.toNat - 48)) 0

/-- The numeric prefix of a "count+revision" string. -/
def countPrefix (s : String) : Nat :=
  digitsToNat (s.data.takeWhile (fun c => c.isDigit))

/-- Concrete variable store with a lowercase "invalid" SRCREV, for the C6
counterexample. -/
def gvInvalidLower : String → Option String :=
  fun k => if k = "SRCREV" then some "invalid" else none

/-- Concrete variable store with the uppercase sentinel, for the C6 witness. -/
def gvInvalidUpper : String → Option String :=
  fun k => if k = "SRCREV" then some "INVALID" else none

/-- Configuration with BB_LOCALCOUNT_OVERRIDE set and LOCALCOUNT = 5, for
the C1 counterexample. -/
def cfgOverride : SortConfig :=
  { sortableHook := none, buildindexHook := none,
    uselocalcount := true, localcountVal := some 5 }

/-- Default configuration: no hooks, no localcount override. -/
def cfgDefault : SortConfig :=
  { sortableHook := none, buildindexHook := none,
    uselocalcount := false, localcountVal := none }

/-- A persisted state whose recorded revision for key "k" is "r1". -/
def stR1 : SortState :=
  { revs := fun k => if k = "k" then some "r1" else none,
    counts := fun k => if k = "k" then some 5 else none }

/-! ## URI codec

decodeurl matches the regex
(?P[type][^:]*)://((?P[user].+)@)?(?P[location][^;]+)(;(?P[parm].*))?
against the URL (re.match, anchored only at the start).  The match is
deterministic: the scheme is everything before the first colon, which must
be followed by //; the user group, being greedy, ends at the rightmost @
that leaves a nonempty location whose first character is not a semicolon;
the location runs to the first semicolon; the parm group takes the rest.
The model ignores the newline exclusion of the dot character class, so the
universal theorems below restrict quantified strings to newline-free ones
where that matters. -/

/-- Split a list at the first occurrence of c; none when c is absent. -/
def splitFirst (c : Char) : List Char → Option (List Char × List Char)
  | [] => none
  | x :: xs =>
    if x = c then some ([], xs)
    else
      match splitFirst c xs with
      | none => none
      | some (a, b) => some (x :: a, b)

/-- Split a list at every occurrence of c, like the Python split method. -/
def splitAll (c : Char) : List Char → List (List Char)
  | [] => [[]]
  | x :: xs =>
    if x = c then [] :: splitAll c xs
    else
      match splitAll c xs with
      | [] => [[x]]
      | h :: t => (x :: h) :: t

/-- The scheme group: the text before the first colon, which must be
followed by two slashes; otherwise the whole regex fails to match. -/
def parseScheme (l : List Char) : Option (List Char × List Char) :=
  match splitFirst ':' l with
  | none => none
  | some (ty, rest) =>
    match rest with
    | '/' :: '/' :: r => some (ty, r)
    | _ => none

/-- Whether position j of l is an @ that the greedy user group can end at:
at least one character before it, and a following character that is not a
semicolon (so the location group can match). -/
def validAtSign (l : List Char) (j : Nat) : Bool :=
  decide (1 ≤ j) && (l.get? j == some '@') &&
    decide (j + 1 < l.length) && !(l.get? (j + 1) == some ';')

/-- The rightmost usable @ position, if any. -/
def lastValidSplit (l : List Char) : Option Nat :=
  ((List.range l.length).filter (fun j => validAtSign l j)).getLast?

/-- Split off the optional user group: text before the rightmost usable @,
and the remainder after it. -/
def parseUserinfo (l : List Char) : Option (List Char) × List Char :=
  match lastValidSplit l with
  | none => (none, l)
  | some j => (some (l.take j), l.drop (j + 1))

/-- The inner user/password regex ([^:]+)(:?(.*)) applied to the user text:
user up to the first colon, password after it.  none models the case where
the inner regex fails (leading colon), which leaves pswd unbound in the
code and makes the return statement raise NameError. -/
def userPswd (up : List Char) : Option (List Char × List Char) :=
  match splitFirst ':' up with
  | none => some (up, [])
  | some ([], _) => none
  | some (u, p) => some (u, p)

/-- One parameter segment: s.split of a "=" with unpacking into exactly two
names, so it succeeds exactly when the segment holds exactly one equals
sign. -/
def parseSeg (seg : List Char) : Option (List Char × List Char) :=
  match splitAll '=' seg with
  | [a, b] => some (a, b)
  | _ => none

/-- All parameter segments; none as soon as one segment is malformed, which
the code surfaces as an uncaught ValueError from tuple unpacking. -/
def parseSegs : List (List Char) → Option (List (List Char × List Char))
  | [] => some []
  | s :: rest =>
    match parseSeg s with
    | none => none
    | some kv =>
      match parseSegs rest with
      | none => none
      | some t => some (kv :: t)

/-- Python dict assignment p[k] = v on an insertion-ordered association
list: an existing key keeps its position and gets the new value, a new key
is appended. -/
def dictInsert (m : List (String × String)) (k v : String) :
    List (String × String) :=
  if m.any (fun kv => kv.1 == k) then
    m.map (fun kv => if kv.1 = k then (k, v) else kv)
  else m ++ [(k, v)]

/-- The decoded tuple (type, host, path, user, pswd, parm). -/
structure Decoded where
  type : String
  host : String
  path : String
  user : String
  pswd : String
  parm : List (String × String)
deriving DecidableEq, Repr

/-- The regex-level shape of a URL: scheme, optional user group, location
(nonempty, guaranteed by the character class), optional parm group.  none
when the regex fails to match, which decodeurl reports as MalformedUrl. -/
def urlShape (l : List Char) :
    Option (List Char × Option (List Char) × List Char × Option (List Char)) :=
  match parseScheme l with
  | none => none
  | some (ty, rest) =>
    let upRest := parseUserinfo rest
    let locParm : List Char × Option (List Char) :=
      match splitFirst ';' upRest.2 with
      | none => (upRest.2, none)
      | some (a, b) => (a, some b)
    if locParm.1 = [] then none
    else some (ty, upRest.1, locParm.1, locParm.2)

/-- decodeurl on the character list.  Mirrors the source: regex match
(MalformedUrl on failure), host/path split of the location at the first
slash unless the lowercased scheme is file, parameter parsing (uncaught
ValueError on a segment without exactly one equals sign), then the
user/password split (whose failure leaves pswd unbound: uncaught
NameError at the return statement, raised after parameter parsing). -/
def decodeurlCore (l : List Char) : Except PyClass Decoded :=
  match urlShape l with
  | none => .error .malformedUrl
  | some (ty, up, loc, parm) =>
    let tyLower := ty.map Char.toLower
    let hostPath : List Char × List Char :=
      match splitFirst '/' loc with
      | none => ([], loc)
      | some (h, r) =>
        if tyLower = ['f', 'i', 'l', 'e'] then ([], loc)
        else (h, '/' :: r)
    let pRes : Except PyClass (List (String × String)) :=
      match parm with
      | none => .ok []
      | some [] => .ok []
      | some pl =>
        match parseSegs (splitAll ';' pl) with
        | none => .error .valueError
        | some pairs =>
          .ok (pairs.foldl (fun m kv => dictInsert m ⟨kv.1⟩ ⟨kv.2⟩) [])
    match pRes with
    | .error e => .error e
    | .ok p =>
      match up with
      | none => .ok ⟨⟨ty⟩, ⟨hostPath.1⟩, ⟨hostPath.2⟩, "", "", p⟩
      | some u =>
        match userPswd u with
        | none => .error .nameError
        | some (us, pw) => .ok ⟨⟨ty⟩, ⟨hostPath.1⟩, ⟨hostPath.2⟩, ⟨us⟩, ⟨pw⟩, p⟩

/-- decodeurl(url). -/
def decodeurl (s : String) : Except PyClass Decoded :=
  decodeurlCore s.data

/-- The parameter tail written by encodeurl: one ";key=value" per pair in
insertion order. -/
def encodeParams (p : List (String × String)) : String :=
  p.foldl (fun acc kv => acc ++ ";" ++ kv.1 ++ "=" ++ kv.2) ""

/-- encodeurl(decoded): MissingParameterError on an empty path or type;
user (with optional password) and host are emitted only when the scheme is
not the exact string "file". -/
def encodeurl (d : Decoded) : Except PyClass String :=
  if d.path = "" then .error .missingParameterError
  else if d.type = "" then .error .missingParameterError
  else
    .ok (d.type ++ "://" ++
      (if d.user ≠ "" ∧ d.type ≠ "file" then
        d.user ++ (if d.pswd ≠ "" then ":" ++ d.pswd else "") ++ "@"
      else "") ++
      (if d.host ≠ "" ∧ d.type ≠ "file" then d.host else "") ++
      d.path ++ encodeParams d.parm)

/-- A URI of the shape scheme://host/path;k1=v1;... -/
def mkUri (scheme host path : String) (ps : List (String × String)) : String :=
  scheme ++ "://" ++ host ++ path ++ encodeParams ps

/-- Whether decodeurl treats the scheme as the local-file scheme: the code
compares type.lower() against "file". -/
def isFileScheme (s : String) : Bool :=
  s.data.map Char.toLower == ['f', 'i', 'l', 'e']

/-- The character stream of the parameter tail written by encodeurl: one
";key=value" per pair, in order. -/
def parmChars : List (String × String) → List Char
  | [] => []
  | kv :: rest => ';' :: ((kv.1.data ++ ('=' :: kv.2.data)) ++ parmChars rest)

/-! ## uri_replace -/

/-- A component of the six-element decoded list: the five strings and the
parameter dict.  Python equality across the two kinds is always false, and
list.index uses equality, which the DecidableEq instance mirrors. -/
inductive Comp where
  | str (s : String)
  | dict (d : List (String × String))
deriving DecidableEq, Repr

/-- list(decodeurl(u)): the six components in order. -/
def compList (d : Decoded) : List Comp :=
  [.str d.type, .str d.host, .str d.path, .str d.user, .str d.pswd,
    .dict d.parm]

/-- list.index: position of the first element equal to c.  The code only
asks for elements of the list, so the out-of-list fallback is unreachable. -/
def firstIdx : List Comp → Comp → Nat
  | [], _ => 0
  | x :: xs, c => if x = c then 0 else firstIdx xs c + 1

def compAsStr : Comp → String
  | .str s => s
  | .dict _ => ""

/-- Index one past the last slash, i.e. rfind of a slash plus one. -/
def lastSlashSucc : List Char → Nat
  | [] => 0
  | x :: xs =>
    let r := lastSlashSucc xs
    if r = 0 then (if x = '/' then 1 else 0) else r + 1

/-- os.path.dirname for posix paths: the text before the last slash, with
trailing slashes stripped unless the head is all slashes. -/
def pyDirname (s : String) : String :=
  let head := s.data.take (lastSlashSucc s.data)
  if head.any (fun c => c != '/') then
    ⟨(head.reverse.dropWhile (fun c => c = '/')).reverse⟩
  else ⟨head⟩

/-- os.path.basename for posix paths. -/
def pyBasename (s : String) : String :=
  ⟨s.data.drop (lastSlashSucc s.data)⟩

/-- os.path.join for posix paths, two arguments. -/
def pyJoin (a b : String) : String :=
  if b.data.head? = some '/' then b
  else if a = "" then b
  else if a.data.getLast? = some '/' then a ++ b
  else a ++ "/" ++ b

/-- The component substitution loop of uri_replace over already decoded
tuples.  rmatch and rsub are the regex oracle (re.match truth value and
re.sub result); localfn is the bb.fetch2.localpath(uri, d) result when d is
supplied and truthy, used to re-derive the basename when the path slot
(index 2) is substituted.  The loop takes each component i of the find
tuple, looks up loc = index(i) (first occurrence, the source of the
duplicate-component bug), copies the input component at loc, and for string
components substitutes on a regex match or aborts the whole replacement on
a mismatch (the caller then returns the original URI).  The dict component
never equals a string, so its loc is 5 and it is skipped by the isinstance
test, leaving the input parameters in the result. -/
def replaceStep (rmatch : String → String → Bool)
    (rsub : String → String → String → String) (localfn : Option String)
    (du df dr : Decoded) (acc : Option (List Comp)) (i : Comp) :
    Option (List Comp) :=
  match acc with
  | none => none
  | some res =>
    let loc := firstIdx (compList df) i
    let cur := (compList du).getD loc (.str "")
    match i with
    | .dict _ => some (res.set loc cur)
    | .str pat =>
      match cur with
      | .dict _ => none
      | .str curs =>
        if rmatch pat curs then
          let sub := rsub pat (compAsStr ((compList dr).getD loc (.str ""))) curs
          let sub2 :=
            if loc = 2 then
              match localfn with
              | some lf =>
                if lf ≠ "" then pyJoin (pyDirname sub) (pyBasename lf)
                else sub
              | none => sub
            else sub
          some (res.set loc (.str sub2))
        else none

def uriReplaceDecoded (rmatch : String → String → Bool)
    (rsub : String → String → String → String) (localfn : Option String)
    (du df dr : Decoded) : Option Decoded :=
  match (compList df).foldl (replaceStep rmatch rsub localfn du df dr)
      (some [.str "", .str "", .str "", .str "", .str "", .dict []]) with
  | none => none
  | some res =>
    some ⟨compAsStr (res.getD 0 (.str "")), compAsStr (res.getD 1 (.str "")),
      compAsStr (res.getD 2 (.str "")), compAsStr (res.getD 3 (.str "")),
      compAsStr (res.getD 4 (.str "")),
      match res.getD 5 (.dict []) with
      | .dict p => p
      | .str _ => []⟩

/-- uri_replace(uri, uri_find, uri_replace, d): decode all three (decoding
errors propagate), run the substitution loop, return the original URI on a
component mismatch, else encode the result. -/
def uri_replace (rmatch : String → String → Bool)
    (rsub : String → String → String → String) (localfn : Option String)
    (uri uriFind uriRepl : String) : Except PyClass String :=
  match decodeurl uri with
  | .error e => .error e
  | .ok du =>
    match decodeurl uriFind with
    | .error e => .error e
    | .ok df =>
      match decodeurl uriRepl with
      | .error e => .error e
      | .ok dr =>
        match uriReplaceDecoded rmatch rsub localfn du df dr with
        | none => .ok uri
        | some r => encodeurl r

/-- Regex oracle instance for concrete inputs whose patterns are literal
strings without metacharacters: re.match is then a prefix test. -/
def litMatch (pat s : String) : Bool := pat.data.isPrefixOf s.data

/-- Replacement of every non-overlapping occurrence of a nonempty literal
pattern, left to right, with fuel for structural recursion.  For an empty
pattern it returns the text unchanged, which agrees with re.sub with an
empty replacement, the only way it is used below. -/
def replaceAllAux (pat rep : List Char) : Nat → List Char → List Char
  | 0, l => l
  | _ + 1, [] => []
  | fuel + 1, x :: xs =>
    if pat ≠ [] ∧ pat.isPrefixOf (x :: xs) then
      rep ++ replaceAllAux pat rep fuel ((x :: xs).drop pat.length)
    else x :: replaceAllAux pat rep fuel xs

/-- Regex oracle instance for literal patterns: re.sub replaces every
non-overlapping occurrence. -/
def litSub (pat rep s : String) : String :=
  ⟨replaceAllAux pat.data rep.data s.data.length s.data⟩

/-- The five string components of a decoded tuple, in list order. -/
def dstrs (d : Decoded) : List String :=
  [d.type, d.host, d.path, d.user, d.pswd]

/-! ## try_mirrors -/

/-- Outcome of building the transient FetchData for a candidate URI and of
setup_localpath.  A constructor exception is caught by the inner handler
only when it is a NoMethodError; a setup_localpath exception is outside
both handlers. -/
inductive CandPrep where
  | prepOk (localpath : String)
  | constructRaise (e : PyClass)
  | setupRaise (e : PyClass)
deriving DecidableEq, Repr

/-- Outcome of the guarded attempt on a candidate: checkstatus returned a
truthy value or download finished (found), checkstatus returned a falsy
value (notFound, check mode only, falls through to the next rule without
cleanup), or an exception was raised. -/
inductive AttemptResult where
  | found (result : String)
  | notFound
  | raised (e : PyClass)
deriving DecidableEq, Repr

/-- Oracles of try_mirrors: the regex engine used inside uri_replace, the
localpath context, and the backend behaviors per candidate URI. -/
structure MirrorEnv where
  rmatch : String → String → Bool
  rsub : String → String → String → String
  localfn : Option String
  prep : String → CandPrep
  attempt : String → AttemptResult

/-- The rule loop of try_mirrors.  For each (find, replace) rule: rewrite
the URI (decode errors propagate); skip the rule when the rewrite returns
the URI unchanged; build the FetchData (continue on NoMethodError,
propagate anything else); run the attempt; return on success; on
MissingParameterError, FetchError or MD5SumError (and hence its subclass
SHA256SumError) remove the partial artifact and continue; propagate any
other exception.  The second result component collects the paths passed to
bb.utils.remove. -/
def tryMirrorsLoop (env : MirrorEnv) (uri : String) :
    List (String × String) → List String →
      Except PyClass (Option String) × List String
  | [], removed => (.ok none, removed)
  | (find, repl) :: rest, removed =>
    match uri_replace env.rmatch env.rsub env.localfn uri find repl with
    | .error e => (.error e, removed)
    | .ok newuri =>
      if newuri = uri then tryMirrorsLoop env uri rest removed
      else
        match env.prep newuri with
        | .constructRaise e =>
          if isInstanceOf e .noMethodError then tryMirrorsLoop env uri rest removed
          else (.error e, removed)
        | .setupRaise e => (.error e, removed)
        | .prepOk lp =>
          match env.attempt newuri with
          | .found r => (.ok (some r), removed)
          | .notFound => tryMirrorsLoop env uri rest removed
          | .raised e =>
            if caughtByMirrorHandler e then
              tryMirrorsLoop env uri rest (removed ++ [lp])
            else (.error e, removed)

/-- try_mirrors(d, uri, mirrors, check, force): short-circuit on an
existing, readable download-directory file unless checking or forced, else
run the rule loop.  fileExists models the os.access test on fpath. -/
def try_mirrors (env : MirrorEnv) (dlDir uri : String)
    (mirrors : List (String × String)) (check fileExists force : Bool) :
    Except PyClass (Option String) × List String :=
  let fpath := pyJoin dlDir (pyBasename uri)
  if !check && fileExists && !force then (.ok (some fpath), [])
  else tryMirrorsLoop env uri mirrors []

/-- A rule that fails to produce a result without raising: the rewrite
leaves the URI unchanged, or no backend supports the candidate, or the
attempt returns a falsy check or raises an exception of the caught
classes. -/
def ruleEliminated (env : MirrorEnv) (uri : String)
    (rule : String × String) : Prop :=
  ∃ newuri,
    uri_replace env.rmatch env.rsub env.localfn uri rule.1 rule.2 =
      .ok newuri ∧
    (newuri = uri ∨
      (∃ e, env.prep newuri = .constructRaise e ∧
        isInstanceOf e .noMethodError = true) ∨
      (∃ lp, env.prep newuri = .prepOk lp ∧
        (env.attempt newuri = .notFound ∨
          (∃ e, env.attempt newuri = .raised e ∧
            caughtByMirrorHandler e = true))))

/-- Concrete environment for the try_mirrors witness: the only candidate
"http://b/g" has a backend and its download raises FetchError. -/
def envFetchFail : MirrorEnv :=
  { rmatch := litMatch, rsub := litSub, localfn := none,
    prep := fun u => if u = "http://b/g" then .prepOk "/dl/f"
      else .constructRaise .noMethodError,
    attempt := fun u => if u = "http://b/g" then .raised .fetchError
      else .notFound }

/-- Concrete environment for the SHA256 subclass witness: the candidate
download raises SHA256SumError. -/
def envShaFail : MirrorEnv :=
  { rmatch := litMatch, rsub := litSub, localfn := none,
    prep := fun u => if u = "http://b/g" then .prepOk "/dl/f"
      else .constructRaise .noMethodError,
    attempt := fun u => if u = "http://b/g" then .raised .sha256SumError
      else .notFound }

/-! ## Theorems -/

/-- Helper: a run of the rule loop in which every rule is eliminated
without success ends with the not-found sentinel, whatever was removed
along the way. -/
theorem tryMirrorsLoop_exhaust (env : MirrorEnv) (uri : String) :
    ∀ (mirrors : List (String × String)) (removed : List String),
      (∀ r ∈ mirrors, ruleEliminated env uri r) →
      (tryMirrorsLoop env uri mirrors removed).1 = Except.ok none := by
  intro mirrors
  induction mirrors with
  | nil => intro removed h; rfl
  | cons rule rest ih =>
    intro removed h
    obtain ⟨find, repl⟩ := rule
    obtain ⟨newuri, hrep, hcase⟩ := h (find, repl) (List.mem_cons_self _ _)
    have hrest : ∀ r ∈ rest, ruleEliminated env uri r :=
      fun r hr => h r (List.mem_cons_of_mem _ hr)
    by_cases hnu : newuri = uri
    · subst hnu
      simp only [tryMirrorsLoop, hrep, if_true]
      exact ih removed hrest
    · simp only [tryMirrorsLoop, hrep]
      rw [if_neg hnu]
      rcases hcase with hc | ⟨e, hpe, hin⟩ | ⟨lp, hlp, hatt⟩
      · exact absurd hc hnu
      · simp only [hpe, hin, if_true]
        exact ih removed hrest
      · rcases hatt with hnf | ⟨e, hae, hce⟩
        · simp only [hlp, hnf]
          exact ih removed hrest
        · simp only [hlp, hae, hce, if_true]
          exact ih _ hrest

/-- C4: a candidate that fails its attempt with an exception of the caught
classes (MissingParameterError, FetchError, MD5SumError and its subclass)
only eliminates that candidate: its partial artifact is removed and the
loop continues on the remaining rules with nothing else changed; and when
the initial short-circuit does not apply and every rule is eliminated
without success, try_mirrors returns the not-found sentinel instead of
raising. -/
theorem try_mirrors_spec (env : MirrorEnv) (dlDir uri : String)
    (mirrors : List (String × String)) (check fe force : Bool) :
    (∀ find repl rest removed newuri lp e,
      uri_replace env.rmatch env.rsub env.localfn uri find repl =
        .ok newuri →
      newuri ≠ uri → env.prep newuri = .prepOk lp →
      env.attempt newuri = .raised e → caughtByMirrorHandler e = true →
      tryMirrorsLoop env uri ((find, repl) :: rest) removed =
        tryMirrorsLoop env uri rest (removed ++ [lp])) ∧
    ((∀ r ∈ mirrors, ruleEliminated env uri r) →
      (!check && fe && !force) = false →
      (try_mirrors env dlDir uri mirrors check fe force).1 =
        Except.ok none) := by
  constructor
  · intro find repl rest removed newuri lp e hrep hnu hlp hae hce
    simp only [tryMirrorsLoop, hrep]
    rw [if_neg hnu]
    simp only [hlp, hae, hce, if_true]
  · intro hall hsc
    unfold try_mirrors
    rw [hsc]
    simp only [Bool.false_eq_true, if_false]
    exact tryMirrorsLoop_exhaust env uri mirrors [] hall

theorem try_mirrors_spec_witness :
    (try_mirrors envFetchFail "/dl" "http://a/f"
      [("http://a/f", "http://b/g")] false false false).1 =
      Except.ok none := by
  refine (try_mirrors_spec envFetchFail "/dl" "http://a/f" _
    false false false).2 ?_ (by decide)
  intro r hr
  simp only [List.mem_singleton] at hr
  subst hr
  exact ⟨"http://b/g", rfl, Or.inr (Or.inr ⟨"/dl/f", rfl,
    Or.inr ⟨PyClass.fetchError, rfl, rfl⟩⟩)⟩

/-- C10: SHA256SumError inherits from MD5SumError, so the candidate
handler of try_mirrors, which names only MissingParameterError, FetchError
and MD5SumError, also catches a SHA256 mismatch and treats it as a
non-fatal candidate elimination: the partial artifact is removed and the
loop continues. -/
theorem sha256_subclass_spec :
    isInstanceOf PyClass.sha256SumError PyClass.md5SumError = true ∧
    caughtByMirrorHandler PyClass.sha256SumError = true ∧
    (∀ (env : MirrorEnv) (uri find repl : String) rest removed newuri lp,
      uri_replace env.rmatch env.rsub env.localfn uri find repl =
        .ok newuri →
      newuri ≠ uri → env.prep newuri = .prepOk lp →
      env.attempt newuri = .raised PyClass.sha256SumError →
      tryMirrorsLoop env uri ((find, repl) :: rest) removed =
        tryMirrorsLoop env uri rest (removed ++ [lp])) := by
  refine ⟨rfl, rfl, ?_⟩
  intro env uri find repl rest removed newuri lp hrep hnu hlp hae
  have hc : caughtByMirrorHandler PyClass.sha256SumError = true := rfl
  simp only [tryMirrorsLoop, hrep]
  rw [if_neg hnu]
  simp only [hlp, hae, hc, if_true]

theorem sha256_subclass_spec_witness :
    tryMirrorsLoop envShaFail "http://a/f" [("http://a/f", "http://b/g")]
      [] = tryMirrorsLoop envShaFail "http://a/f" [] ["/dl/f"] :=
  sha256_subclass_spec.2.2 envShaFail "http://a/f" "http://a/f"
    "http://b/g" [] [] "http://b/g" "/dl/f" rfl (by decide) rfl rfl

/-- C3 counterexample: the find pattern "a://a/path" has equal scheme and
host components, so list.index resolves the host iteration to position 0;
the host "a" is never matched against the input host "b", which it fails
to match, and instead of returning the original URI unchanged the function
returns a partially substituted URI with the host dropped. -/
theorem uri_replace_counterexample :
    decodeurl "a://b/path" = Except.ok ⟨"a", "b", "/path", "", "", []⟩ ∧
    decodeurl "a://a/path" = Except.ok ⟨"a", "a", "/path", "", "", []⟩ ∧
    decodeurl "c://d/newpath" =
      Except.ok ⟨"c", "d", "/newpath", "", "", []⟩ ∧
    litMatch "a" "b" = false ∧
    uri_replace litMatch litSub none "a://b/path" "a://a/path"
      "c://d/newpath" = Except.ok "c:///newpath" ∧
    ("c:///newpath" : String) ≠ "a://b/path" := by
  exact ⟨rfl, rfl, rfl, rfl, rfl, by decide⟩

/-- Helper: the substitution loop leaves an aborted accumulator aborted. -/
theorem foldl_replaceStep_none (rmatch : String → String → Bool)
    (rsub : String → String → String → String) (localfn : Option String)
    (du df dr : Decoded) :
    ∀ l : List Comp,
      l.foldl (replaceStep rmatch rsub localfn du df dr) none = none := by
  intro l
  induction l with
  | nil => rfl
  | cons x xs ih =>
    simp only [List.foldl_cons]
    exact ih

/-- Helper: one substitution step preserves the accumulator length. -/
theorem replaceStep_length (rmatch : String → String → Bool)
    (rsub : String → String → String → String) (localfn : Option String)
    (du df dr : Decoded) (acc res : List Comp) (i : Comp)
    (h : replaceStep rmatch rsub localfn du df dr (some acc) i = some res) :
    res.length = acc.length := by
  cases i with
  | dict p =>
    simp only [replaceStep] at h
    obtain rfl := Option.some.inj h
    simp
  | str pat =>
    simp only [replaceStep] at h
    rcases hcur : (compList du).getD (firstIdx (compList df) (Comp.str pat))
        (Comp.str "") with s | p
    · rw [hcur] at h
      dsimp only at h
      split_ifs at h <;>
        (obtain rfl := Option.some.inj h; simp)
    · rw [hcur] at h
      dsimp only at h
      simp at h

/-- Helper: the substitution loop preserves the accumulator length. -/
theorem foldl_replaceStep_length (rmatch : String → String → Bool)
    (rsub : String → String → String → String) (localfn : Option String)
    (du df dr : Decoded) :
    ∀ (l : List Comp) (acc res : List Comp),
      l.foldl (replaceStep rmatch rsub localfn du df dr) (some acc) =
        some res → res.length = acc.length := by
  intro l
  induction l with
  | nil =>
    intro acc res h
    obtain rfl := Option.some.inj h
    rfl
  | cons x xs ih =>
    intro acc res h
    rw [List.foldl_cons] at h
    cases hs : replaceStep rmatch rsub localfn du df dr (some acc) x with
    | none =>
      rw [hs, foldl_replaceStep_none] at h
      cases h
    | some acc2 =>
      rw [hs] at h
      exact (ih acc2 res h).trans
        (replaceStep_length rmatch rsub localfn du df dr acc acc2 x hs)

/-- Helper: the dict component of the find tuple indexes to position 5:
Python equality between a dict and any of the five strings is false. -/
theorem firstIdx_dict (t h p u pw : String) (pm : List (String × String)) :
    firstIdx [Comp.str t, Comp.str h, Comp.str p, Comp.str u, Comp.str pw,
      Comp.dict pm] (Comp.dict pm) = 5 := by
  simp [firstIdx]

/-- Helper: a substitution step on a string component of the find tuple
neither reads nor writes the parameter mappings of the find and replacement
tuples. -/
theorem replaceStep_param_indep (rmatch : String → String → Bool)
    (rsub : String → String → String → String) (localfn : Option String)
    (du : Decoded) (t h p u pw t2 h2 p2c u2 pw2 : String)
    (pm1 pm2 pm1a pm2a : List (String × String)) (acc : Option (List Comp))
    (i : Comp)
    (hi : i ∈ [Comp.str t, Comp.str h, Comp.str p, Comp.str u, Comp.str pw]) :
    replaceStep rmatch rsub localfn du ⟨t, h, p, u, pw, pm1⟩
      ⟨t2, h2, p2c, u2, pw2, pm2⟩ acc i =
    replaceStep rmatch rsub localfn du ⟨t, h, p, u, pw, pm1a⟩
      ⟨t2, h2, p2c, u2, pw2, pm2a⟩ acc i := by
  cases acc with
  | none => rfl
  | some res =>
    fin_cases hi <;>
      · simp only [replaceStep, compList, firstIdx]
        split_ifs <;> rfl

/-- Helper: the dict step writes the input parameters into slot 5 and does
not depend on the find or replacement parameter mappings. -/
theorem replaceStep_dict_indep (rmatch : String → String → Bool)
    (rsub : String → String → String → String) (localfn : Option String)
    (du : Decoded) (t h p u pw t2 h2 p2c u2 pw2 : String)
    (pm1 pm2 pm1a pm2a : List (String × String)) (acc : Option (List Comp)) :
    replaceStep rmatch rsub localfn du ⟨t, h, p, u, pw, pm1⟩
      ⟨t2, h2, p2c, u2, pw2, pm2⟩ acc (Comp.dict pm1) =
    replaceStep rmatch rsub localfn du ⟨t, h, p, u, pw, pm1a⟩
      ⟨t2, h2, p2c, u2, pw2, pm2a⟩ acc (Comp.dict pm1a) := by
  cases acc with
  | none => rfl
  | some res =>
    simp only [replaceStep]
    rw [show firstIdx (compList ⟨t, h, p, u, pw, pm1⟩) (Comp.dict pm1) = 5
        from firstIdx_dict t h p u pw pm1,
      show firstIdx (compList ⟨t, h, p, u, pw, pm1a⟩) (Comp.dict pm1a) = 5
        from firstIdx_dict t h p u pw pm1a]

/-- C9: a successful substitution returns the parameter mapping of the
input URI unchanged, and the find and replacement parameter mappings are
never consulted: varying them changes neither success nor the result. -/
theorem uri_replace_parm_frame (rmatch : String → String → Bool)
    (rsub : String → String → String → String) (localfn : Option String)
    (du df dr : Decoded) :
    (∀ r, uriReplaceDecoded rmatch rsub localfn du df dr = some r →
      r.parm = du.parm) ∧
    (∀ p1 p2 p1a p2a,
      uriReplaceDecoded rmatch rsub localfn du
        ⟨df.type, df.host, df.path, df.user, df.pswd, p1⟩
        ⟨dr.type, dr.host, dr.path, dr.user, dr.pswd, p2⟩ =
      uriReplaceDecoded rmatch rsub localfn du
        ⟨df.type, df.host, df.path, df.user, df.pswd, p1a⟩
        ⟨dr.type, dr.host, dr.path, dr.user, dr.pswd, p2a⟩) := by
  constructor
  · intro r h
    unfold uriReplaceDecoded at h
    rw [show compList df = [Comp.str df.type, Comp.str df.host,
        Comp.str df.path, Comp.str df.user, Comp.str df.pswd] ++
        [Comp.dict df.parm] from rfl, List.foldl_append] at h
    cases hacc5 : List.foldl (replaceStep rmatch rsub localfn du df dr)
        (some [Comp.str "", Comp.str "", Comp.str "", Comp.str "",
          Comp.str "", Comp.dict []])
        [Comp.str df.type, Comp.str df.host, Comp.str df.path,
          Comp.str df.user, Comp.str df.pswd] with
    | none =>
      rw [hacc5] at h
      rw [show List.foldl (replaceStep rmatch rsub localfn du df dr) none
          [Comp.dict df.parm] =
          none from foldl_replaceStep_none rmatch rsub localfn du df dr _] at h
      cases h
    | some res5 =>
      rw [hacc5] at h
      have hlen : res5.length = 6 := by
        simpa using foldl_replaceStep_length rmatch rsub localfn du df dr
          _ _ res5 hacc5
      simp only [List.foldl_cons, List.foldl_nil] at h
      have hstep : replaceStep rmatch rsub localfn du df dr (some res5)
          (Comp.dict df.parm) =
          some (res5.set 5 (Comp.dict du.parm)) := by
        simp only [replaceStep]
        rw [show firstIdx (compList df) (Comp.dict df.parm) = 5 from
          firstIdx_dict df.type df.host df.path df.user df.pswd df.parm]
        rfl
      rw [hstep] at h
      dsimp only at h
      have hget : (res5.set 5 (Comp.dict du.parm)).getD 5 (Comp.dict []) =
          Comp.dict du.parm := by
        rw [List.getD_eq_getElem?_getD,
          List.getElem?_set_eq_of_lt _ (by omega)]
        rfl
      rw [hget] at h
      obtain rfl := Option.some.inj h
      rfl
  · intro p1 p2 p1a p2a
    unfold uriReplaceDecoded
    rw [show compList ⟨df.type, df.host, df.path, df.user, df.pswd, p1⟩ =
        [Comp.str df.type, Comp.str df.host, Comp.str df.path,
          Comp.str df.user, Comp.str df.pswd] ++ [Comp.dict p1] from rfl,
      show compList ⟨df.type, df.host, df.path, df.user, df.pswd, p1a⟩ =
        [Comp.str df.type, Comp.str df.host, Comp.str df.path,
          Comp.str df.user, Comp.str df.pswd] ++ [Comp.dict p1a] from rfl,
      List.foldl_append, List.foldl_append]
    have hpre := List.foldl_ext
      (replaceStep rmatch rsub localfn du
        ⟨df.type, df.host, df.path, df.user, df.pswd, p1⟩
        ⟨dr.type, dr.host, dr.path, dr.user, dr.pswd, p2⟩)
      (replaceStep rmatch rsub localfn du
        ⟨df.type, df.host, df.path, df.user, df.pswd, p1a⟩
        ⟨dr.type, dr.host, dr.path, dr.user, dr.pswd, p2a⟩)
      (some [Comp.str "", Comp.str "", Comp.str "", Comp.str "",
        Comp.str "", Comp.dict []])
      (l := [Comp.str df.type, Comp.str df.host, Comp.str df.path,
        Comp.str df.user, Comp.str df.pswd])
      (fun acc b hb => replaceStep_param_indep rmatch rsub localfn du
        df.type df.host df.path df.user df.pswd
        dr.type dr.host dr.path dr.user dr.pswd p1 p2 p1a p2a acc b hb)
    rw [hpre]
    simp only [List.foldl_cons, List.foldl_nil]
    rw [replaceStep_dict_indep rmatch rsub localfn du
      df.type df.host df.path df.user df.pswd
      dr.type dr.host dr.path dr.user dr.pswd p1 p2 p1a p2a _]

theorem uri_replace_parm_frame_witness :
    (⟨"http", "b", "/g", "", "", [("k", "v")]⟩ : Decoded).parm =
      (⟨"http", "a", "/f", "", "", [("k", "v")]⟩ : Decoded).parm :=
  (uri_replace_parm_frame litMatch litSub none
    ⟨"http", "a", "/f", "", "", [("k", "v")]⟩
    ⟨"http", "a", "/f", "", "", [("x", "y")]⟩
    ⟨"http", "b", "/g", "", "", [("z", "w")]⟩).1
    ⟨"http", "b", "/g", "", "", [("k", "v")]⟩ rfl

/-- Helper: if the substitution loop finishes without aborting, then every
string component of the find tuple matched the input component located at
its first-occurrence index. -/
theorem foldl_replaceStep_some_tests (rmatch : String → String → Bool)
    (rsub : String → String → String → String) (localfn : Option String)
    (du df dr : Decoded) :
    ∀ (l : List Comp) (acc : Option (List Comp)) (res : List Comp),
      l.foldl (replaceStep rmatch rsub localfn du df dr) acc = some res →
      ∀ i ∈ l, ∀ pat, i = Comp.str pat →
        rmatch pat (compAsStr ((compList du).getD
          (firstIdx (compList df) i) (Comp.str ""))) = true := by
  intro l
  induction l with
  | nil =>
    intro acc res hfold i hi
    exact absurd hi (List.not_mem_nil i)
  | cons x xs ih =>
    intro acc res hfold i hi pat hipat
    rw [List.foldl_cons] at hfold
    rcases List.mem_cons.mp hi with rfl | hi2
    · subst hipat
      by_contra htest
      simp only [Bool.not_eq_true] at htest
      have hstep : replaceStep rmatch rsub localfn du df dr acc
          (Comp.str pat) = none := by
        cases acc with
        | none => rfl
        | some res0 =>
          simp only [replaceStep]
          cases hcur : (compList du).getD
              (firstIdx (compList df) (Comp.str pat)) (Comp.str "") with
          | str s =>
            rw [hcur] at htest
            simp only [compAsStr] at htest
            simp [htest]
          | dict p => rfl
      rw [hstep, foldl_replaceStep_none] at hfold
      cases hfold
    · exact ih _ res hfold i hi2 pat hipat

/-- Helper: the k-th input component as a Comp. -/
theorem compList_getD_five (du : Decoded) :
    ∀ k, k < 5 →
      (compList du).getD k (Comp.str "") =
        Comp.str ((dstrs du).getD k "") := by
  intro k hk
  interval_cases k <;> rfl

/-- Helper: the k-th find component is in the component list. -/
theorem compList_mem_five (df : Decoded) :
    ∀ k, k < 5 → Comp.str ((dstrs df).getD k "") ∈ compList df := by
  intro k hk
  interval_cases k <;> simp [compList, dstrs]

/-- Helper: with pairwise distinct string components, the first-occurrence
index of the k-th find component is k. -/
theorem firstIdx_nodup (df : Decoded) (hnd : (dstrs df).Nodup) :
    ∀ k, k < 5 →
      firstIdx (compList df) (Comp.str ((dstrs df).getD k "")) = k := by
  simp only [dstrs, List.nodup_cons, List.mem_cons, List.mem_singleton,
    List.not_mem_nil, or_false, not_or] at hnd
  obtain ⟨⟨hth, htp, htu, htw⟩, ⟨hhp, hhu, hhw⟩, ⟨hpu, hpw⟩, huw, -⟩ := hnd
  intro k hk
  interval_cases k <;>
    simp [compList, dstrs, firstIdx, hth, htp, htu, htw, hhp, hhu, hhw,
      hpu, hpw, huw]

/-- C3 amended: when the input URI, the find pattern and the replacement
all decode, and the decoded string components of the find pattern are
pairwise distinct (so that the first-occurrence index lookup of the loop
agrees with the component position), a find component that fails to match
the corresponding input component makes uri_replace return the original
URI string completely unchanged.  Without the distinctness condition the
counterexample shows a mismatching component can be skipped. -/
theorem uri_replace_spec (rmatch : String → String → Bool)
    (rsub : String → String → String → String) (localfn : Option String)
    (uri uriFind uriRepl : String) (du df dr : Decoded)
    (hdu : decodeurl uri = Except.ok du)
    (hdf : decodeurl uriFind = Except.ok df)
    (hdr : decodeurl uriRepl = Except.ok dr)
    (hnd : (dstrs df).Nodup)
    (hfail : ∃ k, k < 5 ∧
      rmatch ((dstrs df).getD k "") ((dstrs du).getD k "") = false) :
    uri_replace rmatch rsub localfn uri uriFind uriRepl = Except.ok uri := by
  obtain ⟨k, hk, hfalse⟩ := hfail
  have hnone : uriReplaceDecoded rmatch rsub localfn du df dr = none := by
    unfold uriReplaceDecoded
    cases hfold : (compList df).foldl (replaceStep rmatch rsub localfn du df dr)
        (some [Comp.str "", Comp.str "", Comp.str "", Comp.str "",
          Comp.str "", Comp.dict []]) with
    | none => rfl
    | some res =>
      exfalso
      have htest := foldl_replaceStep_some_tests rmatch rsub localfn du df dr
        _ _ _ hfold (Comp.str ((dstrs df).getD k ""))
        (compList_mem_five df k hk) _ rfl
      rw [firstIdx_nodup df hnd k hk, compList_getD_five du k hk] at htest
      simp only [compAsStr] at htest
      rw [hfalse] at htest
      cases htest
  simp only [uri_replace, hdu, hdf, hdr, hnone]

theorem uri_replace_spec_witness :
    uri_replace litMatch litSub none "y://h2/p2" "x://u:pw@hst/pt"
      "z://m/n" = Except.ok "y://h2/p2" :=
  uri_replace_spec litMatch litSub none "y://h2/p2" "x://u:pw@hst/pt"
    "z://m/n" ⟨"y", "h2", "/p2", "", "", []⟩
    ⟨"x", "hst", "/pt", "u", "pw", []⟩ ⟨"z", "m", "/n", "", "", []⟩
    rfl rfl rfl (by decide) ⟨0, by decide, by decide⟩

/-- Helper: a Python split never returns an empty list. -/
theorem splitAll_ne_nil (c : Char) (l : List Char) : splitAll c l ≠ [] := by
  induction l with
  | nil => simp [splitAll]
  | cons x xs ih =>
    simp only [splitAll]
    split_ifs
    · simp
    · cases hs : splitAll c xs with
      | nil => exact absurd hs ih
      | cons h t => simp

/-- Helper: a split produces one more part than there are separators. -/
theorem splitAll_length_count (c : Char) (l : List Char) :
    (splitAll c l).length = l.count c + 1 := by
  induction l with
  | nil => simp [splitAll]
  | cons x xs ih =>
    by_cases hx : x = c
    · subst hx
      simp [splitAll, List.count_cons, ih]
    · have hcount : (x :: xs).count c = xs.count c := by
        rw [List.count_cons]
        have hbe : (c == x) = false := by
          rw [beq_eq_false_iff_ne]
          exact fun he => hx he.symm
        simp [hbe, hx]
      rw [hcount]
      cases hs : splitAll c xs with
      | nil => exact absurd hs (splitAll_ne_nil c xs)
      | cons h t =>
        simp only [splitAll, if_neg hx, hs, List.length_cons]
        rw [hs] at ih
        simp only [List.length_cons] at ih
        omega

/-- Helper: the tuple unpacking s1, s2 = s.split of an equals sign succeeds
exactly when the segment holds exactly one equals sign. -/
theorem parseSeg_eq_none_iff (seg : List Char) :
    parseSeg seg = none ↔ seg.count '=' ≠ 1 := by
  have hl := splitAll_length_count '=' seg
  unfold parseSeg
  cases hs : splitAll '=' seg with
  | nil => exact absurd hs (splitAll_ne_nil _ _)
  | cons a t =>
    rw [hs] at hl
    cases t with
    | nil =>
      simp only [List.length_cons, List.length_nil] at hl
      simp
      omega
    | cons b t2 =>
      cases t2 with
      | nil =>
        simp only [List.length_cons, List.length_nil] at hl
        simp
        omega
      | cons c2 t3 =>
        simp only [List.length_cons] at hl
        simp
        omega

/-- Helper: the segment loop fails exactly when some segment is bad. -/
theorem parseSegs_eq_none_iff (segs : List (List Char)) :
    parseSegs segs = none ↔ ∃ s ∈ segs, parseSeg s = none := by
  induction segs with
  | nil => simp [parseSegs]
  | cons s rest ih =>
    simp only [parseSegs]
    cases hps : parseSeg s with
    | none =>
      constructor
      · intro h
        exact ⟨s, List.mem_cons_self _ _, hps⟩
      · intro h
        rfl
    | some kv =>
      cases hpr : parseSegs rest with
      | none =>
        constructor
        · intro h
          obtain ⟨s2, hs2, hps2⟩ := ih.mp hpr
          exact ⟨s2, List.mem_cons_of_mem _ hs2, hps2⟩
        · intro h
          rfl
      | some t =>
        constructor
        · intro h
          cases h
        · rintro ⟨s2, hs2, hps2⟩
          rcases List.mem_cons.mp hs2 with rfl | hs3
          · rw [hps] at hps2
            cases hps2
          · have hn : parseSegs rest = none := ih.mpr ⟨s2, hs3, hps2⟩
            rw [hpr] at hn
            cases hn

/-- Helper: splitFirst misses an absent separator. -/
theorem splitFirst_not_mem (c : Char) (a : List Char) (h : c ∉ a) :
    splitFirst c a = none := by
  induction a with
  | nil => rfl
  | cons x xs ih =>
    simp only [List.mem_cons, not_or] at h
    have hxc : ¬(x = c) := fun he => h.1 he.symm
    simp [splitFirst, hxc, ih h.2]

/-- Helper: splitFirst cuts at the first separator. -/
theorem splitFirst_append (c : Char) (a b : List Char) (h : c ∉ a) :
    splitFirst c (a ++ c :: b) = some (a, b) := by
  induction a with
  | nil => simp [splitFirst]
  | cons x xs ih =>
    simp only [List.mem_cons, not_or] at h
    have hxc : ¬(x = c) := fun he => h.1 he.symm
    simp [splitFirst, hxc, ih h.2]

/-- Helper: splitAll of separator-free text is one part. -/
theorem splitAll_single (c : Char) (a : List Char) (h : c ∉ a) :
    splitAll c a = [a] := by
  induction a with
  | nil => rfl
  | cons x xs ih =>
    simp only [List.mem_cons, not_or] at h
    have hxc : ¬(x = c) := fun he => h.1 he.symm
    simp [splitAll, hxc, ih h.2]

/-- Helper: splitAll peels the part before the first separator. -/
theorem splitAll_append (c : Char) (a b : List Char) (h : c ∉ a) :
    splitAll c (a ++ c :: b) = a :: splitAll c b := by
  induction a with
  | nil => simp [splitAll]
  | cons x xs ih =>
    simp only [List.mem_cons, not_or] at h
    have hxc : ¬(x = c) := fun he => h.1 he.symm
    rw [List.cons_append]
    simp only [splitAll, if_neg hxc, ih h.2]

/-- Helper: with no at sign anywhere, the greedy user group fails. -/
theorem lastValidSplit_not_mem (l : List Char) (h : '@' ∉ l) :
    lastValidSplit l = none := by
  unfold lastValidSplit
  rw [List.filter_eq_nil.mpr ?_]
  · rfl
  · intro j hj hv
    simp only [validAtSign, Bool.and_eq_true, beq_iff_eq,
      decide_eq_true_eq] at hv
    exact h (List.get?_mem hv.1.1.2)

/-- Helper: the encoded parameter tail, at character level. -/
theorem encodeParams_data (ps : List (String × String)) :
    (encodeParams ps).data = parmChars ps := by
  have haux : ∀ acc : String,
      (ps.foldl (fun acc kv => acc ++ ";" ++ kv.1 ++ "=" ++ kv.2) acc).data =
        acc.data ++ parmChars ps := by
    induction ps with
    | nil =>
      intro acc
      simp [parmChars]
    | cons kv rest ih =>
      intro acc
      simp only [List.foldl_cons]
      rw [ih]
      simp [parmChars, String.data_append]
  exact haux ""

/-- Helper: every character of the parameter tail is a separator, an
equals sign, or a character of some key or value. -/
theorem parmChars_mem (ps : List (String × String)) (c : Char)
    (hc : c ∈ parmChars ps) :
    c = ';' ∨ c = '=' ∨ ∃ kv ∈ ps, c ∈ kv.1.data ∨ c ∈ kv.2.data := by
  induction ps with
  | nil => simp [parmChars] at hc
  | cons kv rest ih =>
    simp only [parmChars, List.mem_cons, List.mem_append] at hc
    rcases hc with rfl | (hk | hv) | hrest
    · exact Or.inl rfl
    · exact Or.inr (Or.inr ⟨kv, List.mem_cons_self _ _, Or.inl hk⟩)
    · rcases hv with rfl | hv2
      · exact Or.inr (Or.inl rfl)
      · exact Or.inr (Or.inr ⟨kv, List.mem_cons_self _ _, Or.inr hv2⟩)
    · rcases ih hrest with h1 | h1 | ⟨kv2, hkv2, h1⟩
      · exact Or.inl h1
      · exact Or.inr (Or.inl h1)
      · exact Or.inr (Or.inr ⟨kv2, List.mem_cons_of_mem _ hkv2, h1⟩)

/-- Helper: splitting the parameter section back into its segments. -/
theorem splitAll_parmChars (kv : String × String)
    (rest : List (String × String))
    (hall : ∀ kv2 ∈ kv :: rest, ';' ∉ kv2.1.data ∧ ';' ∉ kv2.2.data) :
    splitAll ';' ((kv.1.data ++ ('=' :: kv.2.data)) ++ parmChars rest) =
      (kv :: rest).map (fun kv2 => kv2.1.data ++ ('=' :: kv2.2.data)) := by
  induction rest generalizing kv with
  | nil =>
    have h1 := hall kv (List.mem_cons_self _ _)
    have hseg : ';' ∉ kv.1.data ++ ('=' :: kv.2.data) := by
      simp only [List.mem_append, List.mem_cons, not_or]
      exact ⟨h1.1, by decide, h1.2⟩
    simp [parmChars, splitAll_single ';' _ hseg]
  | cons kv2 rest2 ih =>
    have h1 := hall kv (List.mem_cons_self _ _)
    have hseg : ';' ∉ kv.1.data ++ ('=' :: kv.2.data) := by
      simp only [List.mem_append, List.mem_cons, not_or]
      exact ⟨h1.1, by decide, h1.2⟩
    have hre : (kv.1.data ++ ('=' :: kv.2.data)) ++ parmChars (kv2 :: rest2) =
        (kv.1.data ++ ('=' :: kv.2.data)) ++ ';' ::
          ((kv2.1.data ++ ('=' :: kv2.2.data)) ++ parmChars rest2) := by
      simp [parmChars]
    rw [hre, splitAll_append ';' _ _ hseg,
      ih kv2 (fun kv3 h3 => hall kv3 (List.mem_cons_of_mem _ h3))]
    simp

/-- Helper: a well-formed segment parses back into its pair. -/
theorem parseSeg_pair (k v : List Char) (hk : '=' ∉ k)
    (hv : '=' ∉ v) :
    parseSeg (k ++ ('=' :: v)) = some (k, v) := by
  unfold parseSeg
  rw [splitAll_append '=' k v hk, splitAll_single '=' v hv]

/-- Helper: the segment loop parses all well-formed segments. -/
theorem parseSegs_map (ps : List (String × String))
    (h : ∀ kv ∈ ps, '=' ∉ kv.1.data ∧ '=' ∉ kv.2.data) :
    parseSegs (ps.map (fun kv => kv.1.data ++ ('=' :: kv.2.data))) =
      some (ps.map (fun kv => (kv.1.data, kv.2.data))) := by
  induction ps with
  | nil => rfl
  | cons kv rest ih =>
    have h1 := h kv (List.mem_cons_self _ _)
    simp only [List.map_cons, parseSegs,
      parseSeg_pair kv.1.data kv.2.data h1.1 h1.2,
      ih (fun kv2 h2 => h kv2 (List.mem_cons_of_mem _ h2))]

/-- Helper: inserting a fresh key appends. -/
theorem dictInsert_append (m : List (String × String)) (k v : String)
    (h : ∀ kv ∈ m, kv.1 ≠ k) : dictInsert m k v = m ++ [(k, v)] := by
  have hany : m.any (fun kv => kv.1 == k) = false := by
    rw [List.any_eq_false]
    intro kv hkv
    simp only [beq_iff_eq]
    exact h kv hkv
  simp [dictInsert, hany]

/-- Helper: rebuilding the dict from pairs with distinct keys reproduces
the pairs. -/
theorem foldl_dictInsert (ps : List (String × String)) :
    ∀ acc, (ps.map Prod.fst).Nodup →
      (∀ kv ∈ ps, ∀ kv2 ∈ acc, kv2.1 ≠ kv.1) →
      ps.foldl (fun m kv => dictInsert m kv.1 kv.2) acc = acc ++ ps := by
  induction ps with
  | nil =>
    intro acc h1 h2
    simp
  | cons kv rest ih =>
    intro acc h1 h2
    simp only [List.map_cons, List.nodup_cons] at h1
    simp only [List.foldl_cons]
    rw [dictInsert_append acc kv.1 kv.2
      (fun kv2 hkv2 => h2 kv (List.mem_cons_self _ _) kv2 hkv2)]
    rw [ih (acc ++ [kv]) h1.2 ?_]
    · simp
    · intro kv3 h3 kv2 h2m
      rcases List.mem_append.mp h2m with ha | hb
      · exact h2 kv3 (List.mem_cons_of_mem _ h3) kv2 ha
      · simp only [List.mem_singleton] at hb
        subst hb
        intro he
        exact h1.1 (he ▸ List.mem_map_of_mem Prod.fst h3)

/-- Helper: decoding a URI of the shape scheme://host/path;k=v;... built by
mkUri recovers exactly the structured components, under the character
restrictions of that shape (the scheme holds no colon; the host holds no
slash, semicolon or at sign; the path starts with a slash and holds no
semicolon or at sign; keys and values hold no equals sign, semicolon or at
sign and the keys are distinct; a file-like scheme comes with an empty
host, as in every tuple decodeurl itself produces for such schemes). -/
theorem decodeurl_mkUri (scheme host path : String)
    (ps : List (String × String))
    (hs2 : ':' ∉ scheme.data)
    (hh1 : '/' ∉ host.data) (hh2 : ';' ∉ host.data) (hh3 : '@' ∉ host.data)
    (hp1 : path.data.head? = some '/') (hp2 : ';' ∉ path.data)
    (hp3 : '@' ∉ path.data)
    (hps : ∀ kv ∈ ps, '=' ∉ kv.1.data ∧ ';' ∉ kv.1.data ∧ '@' ∉ kv.1.data ∧
      '=' ∉ kv.2.data ∧ ';' ∉ kv.2.data ∧ '@' ∉ kv.2.data)
    (hnd : (ps.map Prod.fst).Nodup)
    (hfile : isFileScheme scheme = true → host = "") :
    decodeurl (mkUri scheme host path ps) =
      Except.ok ⟨scheme, host, path, "", "", ps⟩ := by
  obtain ⟨prest, hpath⟩ : ∃ prest, path.data = '/' :: prest := by
    cases hpd : path.data with
    | nil => rw [hpd] at hp1; cases hp1
    | cons c t =>
      rw [hpd] at hp1
      simp only [List.head?_cons, Option.some.injEq] at hp1
      subst hp1
      exact ⟨t, rfl⟩
  have hdata : (mkUri scheme host path ps).data =
      scheme.data ++ ':' :: '/' :: '/' ::
        (host.data ++ (path.data ++ parmChars ps)) := by
    simp [mkUri, String.data_append, encodeParams_data, List.append_assoc,
      show ("://" : String).data = [':', '/', '/'] from rfl]
  have hscheme : parseScheme (mkUri scheme host path ps).data =
      some (scheme.data, host.data ++ (path.data ++ parmChars ps)) := by
    rw [hdata]
    unfold parseScheme
    rw [splitFirst_append ':' scheme.data _ hs2]
    rfl
  have hat : '@' ∉ host.data ++ (path.data ++ parmChars ps) := by
    simp only [List.mem_append, not_or]
    refine ⟨hh3, hp3, fun hmem => ?_⟩
    rcases parmChars_mem ps '@' hmem with h1 | h1 | ⟨kv, hkv, h1 | h1⟩
    · exact absurd h1 (by decide)
    · exact absurd h1 (by decide)
    · exact (hps kv hkv).2.2.1 h1
    · exact (hps kv hkv).2.2.2.2.2 h1
  have huser : parseUserinfo (host.data ++ (path.data ++ parmChars ps)) =
      (none, host.data ++ (path.data ++ parmChars ps)) := by
    unfold parseUserinfo
    rw [lastValidSplit_not_mem _ hat]
  have hsemifree : ';' ∉ host.data ++ path.data := by
    simp only [List.mem_append, not_or]
    exact ⟨hh2, hp2⟩
  cases ps with
  | nil =>
    have hsemi : splitFirst ';'
        (host.data ++ (path.data ++ parmChars [])) = none := by
      simp only [parmChars, List.append_nil]
      exact splitFirst_not_mem ';' _ hsemifree
    have hshape : urlShape (mkUri scheme host path []).data =
        some (scheme.data, none, host.data ++ (path.data ++ parmChars []),
          none) := by
      simp only [urlShape, hscheme, huser, hsemi]
      rw [if_neg (by simp [hpath])]
    unfold decodeurl decodeurlCore
    rw [hshape]
    dsimp only
    simp only [parmChars, List.append_nil]
    by_cases hfl : isFileScheme scheme = true
    · have h0 : host = "" := hfile hfl
      have hlow : scheme.data.map Char.toLower = ['f', 'i', 'l', 'e'] := by
        simpa [isFileScheme] using hfl
      rw [h0]
      simp only [show ("" : String).data = [] from rfl, List.nil_append,
        hpath]
      rw [show splitFirst '/' ('/' :: prest) = some ([], prest) from by
        simp [splitFirst]]
      dsimp only
      rw [if_pos hlow]
      rw [← hpath]
    · have hlow : ¬(scheme.data.map Char.toLower = ['f', 'i', 'l', 'e']) := by
        simpa [isFileScheme] using hfl
      rw [hpath, splitFirst_append '/' host.data prest hh1]
      dsimp only
      rw [if_neg hlow]
      rw [← hpath]
  | cons kv rest =>
    have hre : host.data ++ (path.data ++ parmChars (kv :: rest)) =
        (host.data ++ path.data) ++ ';' ::
          ((kv.1.data ++ ('=' :: kv.2.data)) ++ parmChars rest) := by
      simp [parmChars, List.append_assoc]
    have hsemi : splitFirst ';'
        (host.data ++ (path.data ++ parmChars (kv :: rest))) =
        some (host.data ++ path.data,
          (kv.1.data ++ ('=' :: kv.2.data)) ++ parmChars rest) := by
      rw [hre]
      exact splitFirst_append ';' _ _ hsemifree
    have hshape : urlShape (mkUri scheme host path (kv :: rest)).data =
        some (scheme.data, none, host.data ++ path.data,
          some ((kv.1.data ++ ('=' :: kv.2.data)) ++ parmChars rest)) := by
      simp only [urlShape, hscheme, huser, hsemi]
      rw [if_neg (by simp [hpath])]
    have hsegs : parseSegs (splitAll ';'
        ((kv.1.data ++ ('=' :: kv.2.data)) ++ parmChars rest)) =
        some ((kv :: rest).map (fun kv2 => (kv2.1.data, kv2.2.data))) := by
      rw [splitAll_parmChars kv rest
        (fun kv2 h2 => ⟨(hps kv2 h2).2.1, (hps kv2 h2).2.2.2.2.1⟩)]
      exact parseSegs_map (kv :: rest)
        (fun kv2 h2 => ⟨(hps kv2 h2).1, (hps kv2 h2).2.2.2.1⟩)
    obtain ⟨i0, itail, hinner⟩ : ∃ a b,
        (kv.1.data ++ ('=' :: kv.2.data)) ++ parmChars rest = a :: b := by
      cases hk : kv.1.data with
      | nil => exact ⟨'=', kv.2.data ++ parmChars rest, by simp [hk]⟩
      | cons c t =>
        exact ⟨c, (t ++ ('=' :: kv.2.data)) ++ parmChars rest, by simp [hk]⟩
    have hfold : ((kv :: rest).map
          (fun kv2 => (kv2.1.data, kv2.2.data))).foldl
        (fun m kv2 => dictInsert m ⟨kv2.1⟩ ⟨kv2.2⟩) [] = kv :: rest := by
      rw [List.foldl_map]
      have hext : (kv :: rest).foldl
          (fun m kv2 => dictInsert m ⟨kv2.1.data⟩ ⟨kv2.2.data⟩) [] =
          (kv :: rest).foldl (fun m kv2 => dictInsert m kv2.1 kv2.2) [] :=
        List.foldl_ext _ _ _ (fun a b hb => rfl)
      rw [hext, foldl_dictInsert (kv :: rest) [] hnd
        (fun kv3 h3 kv2 h2 => absurd h2 (List.not_mem_nil kv2))]
      simp
    unfold decodeurl decodeurlCore
    rw [hshape]
    dsimp only
    rw [hinner]
    dsimp only
    rw [← hinner, hsegs]
    dsimp only
    rw [hfold]
    by_cases hfl : isFileScheme scheme = true
    · have h0 : host = "" := hfile hfl
      have hlow : scheme.data.map Char.toLower = ['f', 'i', 'l', 'e'] := by
        simpa [isFileScheme] using hfl
      rw [h0]
      simp only [show ("" : String).data = [] from rfl, List.nil_append,
        hpath]
      rw [show splitFirst '/' ('/' :: prest) = some ([], prest) from by
        simp [splitFirst]]
      dsimp only
      rw [if_pos hlow]
      rw [← hpath]
    · have hlow : ¬(scheme.data.map Char.toLower = ['f', 'i', 'l', 'e']) := by
        simpa [isFileScheme] using hfl
      rw [hpath, splitFirst_append '/' host.data prest hh1]
      dsimp only
      rw [if_neg hlow]
      rw [← hpath]

/-- Helper: encoding the decoded tuple of such a URI reproduces the URI
string: the user and password slots are empty, and a nonempty host only
occurs with a scheme that is not the exact string "file". -/
theorem encodeurl_mkUri (scheme host path : String)
    (ps : List (String × String)) (hs1 : scheme ≠ "") (hpne : path ≠ "")
    (hfile : isFileScheme scheme = true → host = "") :
    encodeurl ⟨scheme, host, path, "", "", ps⟩ =
      Except.ok (mkUri scheme host path ps) := by
  unfold encodeurl
  dsimp only
  rw [if_neg hpne, if_neg hs1]
  rw [if_neg (show ¬(("" : String) ≠ "" ∧ scheme ≠ "file") from by simp)]
  have hhost : (if host ≠ "" ∧ scheme ≠ "file" then host else "") = host := by
    by_cases hh0 : host = ""
    · rw [hh0]
      simp
    · have hsf : scheme ≠ "file" := fun he => hh0 (hfile (by rw [he]; rfl))
      rw [if_pos ⟨hh0, hsf⟩]
  rw [hhost]
  congr 1
  apply String.ext
  simp [mkUri, String.data_append]

/-- C5: for the decoded tuple of a URI of the shape
scheme://host/path;k=v;... (no credentials; under the character
restrictions of that shape, with a file-like scheme forcing an empty host
exactly as decodeurl produces), decode of the built URI yields exactly the
tuple, and encodeurl maps the tuple back to the identical URI string, so
decode after encode reproduces the same scheme, host, path, credentials
and parameter pairs; the file exception is covered because such tuples
carry an empty host and empty credentials, which encodeurl omits. -/
theorem decode_encode_roundtrip (scheme host path : String)
    (ps : List (String × String))
    (hs1 : scheme ≠ "") (hs2 : ':' ∉ scheme.data)
    (hh1 : '/' ∉ host.data) (hh2 : ';' ∉ host.data) (hh3 : '@' ∉ host.data)
    (hp1 : path.data.head? = some '/') (hp2 : ';' ∉ path.data)
    (hp3 : '@' ∉ path.data)
    (hps : ∀ kv ∈ ps, '=' ∉ kv.1.data ∧ ';' ∉ kv.1.data ∧ '@' ∉ kv.1.data ∧
      Char.ofNat 10 ∉ kv.1.data ∧ '=' ∉ kv.2.data ∧ ';' ∉ kv.2.data ∧
      '@' ∉ kv.2.data ∧ Char.ofNat 10 ∉ kv.2.data)
    (hnd : (ps.map Prod.fst).Nodup)
    (hfile : isFileScheme scheme = true → host = "") :
    decodeurl (mkUri scheme host path ps) =
      Except.ok ⟨scheme, host, path, "", "", ps⟩ ∧
    encodeurl ⟨scheme, host, path, "", "", ps⟩ =
      Except.ok (mkUri scheme host path ps) := by
  have hpne : path ≠ "" := by
    intro he
    rw [he] at hp1
    simp at hp1
  refine ⟨decodeurl_mkUri scheme host path ps hs2 hh1 hh2 hh3 hp1 hp2 hp3
    (fun kv hkv => ?_) hnd hfile,
    encodeurl_mkUri scheme host path ps hs1 hpne hfile⟩
  obtain ⟨h1, h2, h3, h4, h5, h6, h7, h8⟩ := hps kv hkv
  exact ⟨h1, h2, h3, h5, h6, h7⟩

theorem decode_encode_roundtrip_witness :
    decodeurl (mkUri "http" "h" "/p" [("a", "b")]) =
      Except.ok ⟨"http", "h", "/p", "", "", [("a", "b")]⟩ ∧
    encodeurl ⟨"http", "h", "/p", "", "", [("a", "b")]⟩ =
      Except.ok (mkUri "http" "h" "/p" [("a", "b")]) :=
  decode_encode_roundtrip "http" "h" "/p" [("a", "b")] (by decide)
    (by decide) (by decide) (by decide) (by decide) (by decide) (by decide)
    (by decide) (by decide) (by decide) (by decide)

/-- C8: decodeurl succeeds only when every segment of the parameter section
holds exactly one equals sign, and a URL whose parameter section has a
segment with zero or with two or more equals signs fails with the builtin
ValueError from tuple unpacking, which is distinct from the documented
MalformedUrl error. -/
theorem decodeurl_params_spec (url : String) :
    (∀ d ty up loc pl, decodeurl url = Except.ok d →
      urlShape url.data = some (ty, up, loc, some pl) → pl ≠ [] →
      ∀ seg ∈ splitAll ';' pl, seg.count '=' = 1) ∧
    (∀ ty up loc pl, urlShape url.data = some (ty, up, loc, some pl) →
      pl ≠ [] → (∃ seg ∈ splitAll ';' pl, seg.count '=' ≠ 1) →
      decodeurl url = Except.error PyClass.valueError) ∧
    (Except.error PyClass.valueError ≠
      (Except.error PyClass.malformedUrl : Except PyClass Decoded)) := by
  refine ⟨?_, ?_, by simp⟩
  · intro d ty up loc pl hok hshape hne seg hseg
    unfold decodeurl decodeurlCore at hok
    rw [hshape] at hok
    cases pl with
    | nil => exact absurd rfl hne
    | cons p0 ps =>
      dsimp only at hok
      cases hsegs : parseSegs (splitAll ';' (p0 :: ps)) with
      | none =>
        rw [hsegs] at hok
        cases hok
      | some pairs =>
        by_contra hcount
        have : parseSegs (splitAll ';' (p0 :: ps)) = none :=
          (parseSegs_eq_none_iff _).mpr
            ⟨seg, hseg, (parseSeg_eq_none_iff seg).mpr hcount⟩
        rw [this] at hsegs
        cases hsegs
  · intro ty up loc pl hshape hne hbad
    obtain ⟨seg, hseg, hcount⟩ := hbad
    unfold decodeurl decodeurlCore
    rw [hshape]
    cases pl with
    | nil => exact absurd rfl hne
    | cons p0 ps =>
      dsimp only
      rw [(parseSegs_eq_none_iff _).mpr
        ⟨seg, hseg, (parseSeg_eq_none_iff seg).mpr hcount⟩]

theorem decodeurl_params_spec_witness :
    decodeurl "http://h/p;ab" = Except.error PyClass.valueError :=
  (decodeurl_params_spec "http://h/p;ab").2.1 "http".data none "h/p".data
    "ab".data rfl (by decide) ⟨"ab".data, by decide, by decide⟩

/-- C7: check_network_access raises FetchError exactly when BB_NO_NETWORK is
set to the string "1"; any other configuration returns normally. -/
theorem check_network_access_spec (v : Option String) :
    (check_network_access v = .error .fetchError ↔ v = some "1") ∧
    (v ≠ some "1" → check_network_access v = .ok ()) := by
  unfold check_network_access
  by_cases h : v = some "1" <;> simp [h]

theorem check_network_access_spec_witness :
    check_network_access none = Except.ok () :=
  (check_network_access_spec none).2 (by simp)

/-- C2 counterexample: an http download with a declared, mismatching MD5
expectation but no declared SHA256 expectation takes the warning branch and
passes (strict mode off) instead of raising MD5SumError, because the code
tests md5_expected == None or sha256_expected == None. -/
theorem verify_checksum_counterexample :
    verify_checksum "http" (some "aaa") none "bbb" "ccc" none =
      VerifyOutcome.warnedOk ∧
    VerifyOutcome.warnedOk ≠ VerifyOutcome.md5Mismatch := by
  exact ⟨by decide, by decide⟩

/-- C2 amended: for plain-download types the warning branch (pass, or
FetchError exactly under strict flag "1") is taken exactly when at least one
of the two expected checksums is undeclared; when both are declared, a
mismatching MD5 raises MD5SumError, then a mismatching SHA256 raises
SHA256SumError, else verification passes. -/
theorem verify_checksum_spec (ty : String) (m5 s2 : Option String)
    (d5 d2 : String) (strict : Option String) (hty : ty ∈ plainTypes) :
    ((m5 = none ∨ s2 = none) →
      verify_checksum ty m5 s2 d5 d2 strict =
        (if strict = some "1" then VerifyOutcome.warnedFetchError
          else VerifyOutcome.warnedOk)) ∧
    ((verify_checksum ty m5 s2 d5 d2 strict = VerifyOutcome.warnedOk ∨
      verify_checksum ty m5 s2 d5 d2 strict = VerifyOutcome.warnedFetchError) →
      (m5 = none ∨ s2 = none)) ∧
    (∀ a b, m5 = some a → s2 = some b →
      (a ≠ d5 → verify_checksum ty m5 s2 d5 d2 strict = VerifyOutcome.md5Mismatch) ∧
      (a = d5 → b ≠ d2 →
        verify_checksum ty m5 s2 d5 d2 strict = VerifyOutcome.sha256Mismatch) ∧
      (a = d5 → b = d2 →
        verify_checksum ty m5 s2 d5 d2 strict = VerifyOutcome.passed)) := by
  unfold verify_checksum
  refine ⟨fun h => by simp [hty, h], ?_, ?_⟩
  · intro h
    rcases m5 with _ | a
    · exact Or.inl rfl
    rcases s2 with _ | b
    · exact Or.inr rfl
    exfalso
    rw [if_pos hty] at h
    rcases h with h | h <;> (split_ifs at h <;> simp_all)
  · intro a b ha hb
    subst ha; subst hb
    refine ⟨fun hne => by simp [hty, hne], fun he hne => ?_, fun he hb2 => ?_⟩
    · subst he; simp [hty, hne]
    · subst he; subst hb2; simp [hty]

theorem verify_checksum_spec_witness :
    verify_checksum "http" (some "aaa") (some "sss") "zzz" "sss" none =
      VerifyOutcome.md5Mismatch :=
  ((verify_checksum_spec "http" (some "aaa") (some "sss") "zzz" "sss" none
    (by decide)).2.2 "aaa" "sss" rfl rfl).1 (by decide)

/-- C6 counterexample: with no rev or tag parameter and the revision lookup
resolving to the lowercase string "invalid", srcrev_internal_helper returns
the value normally instead of raising FetchError: the sentinel in the code
is the uppercase "INVALID". -/
theorem srcrev_invalid_counterexample :
    srcrevLookup gvInvalidLower "" "" = some "invalid" ∧
    srcrev_internal_helper [] gvInvalidLower "" "" "head" =
      Except.ok (some "invalid") := by
  exact ⟨rfl, rfl⟩

/-- C6 amended: with no explicit rev or tag URI parameter, when the
symbolic-revision lookup chain resolves to the literal uppercase sentinel
"INVALID", srcrev_internal_helper fails with FetchError. -/
theorem srcrev_internal_helper_spec (parm : List (String × String))
    (gv : String → Option String) (name pn lrev : String)
    (hrev : lookupParm parm "rev" = none) (htag : lookupParm parm "tag" = none)
    (hres : srcrevLookup gv name pn = some "INVALID") :
    srcrev_internal_helper parm gv name pn lrev =
      Except.error PyClass.fetchError := by
  unfold srcrev_internal_helper
  rw [hrev, htag, hres]
  simp

theorem srcrev_internal_helper_spec_witness :
    srcrev_internal_helper [] gvInvalidUpper "" "" "head" =
      Except.error PyClass.fetchError :=
  srcrev_internal_helper_spec [] gvInvalidUpper "" "" "head" rfl rfl rfl

/-- C1 counterexample: with BB_LOCALCOUNT_OVERRIDE set and LOCALCOUNT = 5,
a call while the recorded revision "r1" is current returns "5+r1" without
touching the state, and a call after the revision changed to "r2" returns
"5+r2": the numeric count prefix is not strictly greater. -/
theorem sortable_revision_counterexample :
    (sortable_revision cfgOverride stR1 "k" "r1").1 = "5+r1" ∧
    (sortable_revision cfgOverride stR1 "k" "r1").2 = stR1 ∧
    (sortable_revision cfgOverride stR1 "k" "r2").1 = "5+r2" ∧
    stR1.revs "k" = some "r1" ∧ ("r2" : String) ≠ "r1" ∧
    ¬ (countPrefix (sortable_revision cfgOverride stR1 "k" "r2").1 >
        countPrefix (sortable_revision cfgOverride stR1 "k" "r1").1) := by
  refine ⟨rfl, rfl, rfl, rfl, by decide, by decide⟩

/-- C1 amended: in the generic path (no _sortable_revision hook), when the
latest revision equals the recorded revision under the cache key, the call
returns the same "count+revision" string on repetition and leaves the
persisted state unchanged; and additionally under the default counting
policy (no _sortable_buildindex hook, BB_LOCALCOUNT_OVERRIDE unset) a later
call with a changed revision returns a count one larger than the previous,
hence strictly greater, and persists the new pair. -/
theorem sortable_revision_spec (cfg : SortConfig) (st : SortState)
    (key r1 r2 : String) (hhook : cfg.sortableHook = none) :
    (st.revs key = some r1 →
      (sortable_revision cfg st key r1).2 = st ∧
      sortable_revision cfg ((sortable_revision cfg st key r1).2) key r1 =
        sortable_revision cfg st key r1) ∧
    (cfg.buildindexHook = none → cfg.uselocalcount = false →
      st.revs key = some r1 → r2 ≠ r1 →
      sortable_revision cfg st key r1 =
        (toString ((st.counts key).getD 0) ++ "+" ++ r1, st) ∧
      (sortable_revision cfg st key r2).1 =
        toString ((st.counts key).getD 0 + 1) ++ "+" ++ r2 ∧
      ((sortable_revision cfg st key r2).2).counts key =
        some ((st.counts key).getD 0 + 1) ∧
      ((sortable_revision cfg st key r2).2).revs key = some r2 ∧
      (st.counts key).getD 0 < (st.counts key).getD 0 + 1) := by
  constructor
  · intro hlast
    constructor
    · simp [sortable_revision, hhook, hlast]
    · simp [sortable_revision, hhook, hlast]
  · intro hbi hulc hlast hne
    have hne2 : r1 ≠ r2 := fun h => hne h.symm
    refine ⟨?_, ?_, ?_, ?_, Nat.lt_succ_self _⟩ <;>
      simp [sortable_revision, hhook, hbi, hulc, hlast, hne2, updateFun]

theorem sortable_revision_spec_witness :
    (sortable_revision cfgDefault stR1 "k" "r1").2 = stR1 ∧
    (sortable_revision cfgDefault stR1 "k" "r2").1 = "6+r2" := by
  have h := sortable_revision_spec cfgDefault stR1 "k" "r1" "r2" rfl
  refine ⟨(h.1 rfl).1, ?_⟩
  have h2 := (h.2 rfl rfl rfl (by decide)).2.1
  rw [h2]
  rfl

end BBFetch
